import Mathlib

/-!
Verification of a periodic real-time schedulability tool (RM/DM/EDF).

The development shallowly embeds the four Python source files of the
repository:

* `model.py`      — the `Task` and `Job` data model;
* `analysis.py`   — utilization, the Liu–Layland bound test, the exact
                    WCRT fixed-point solver and the RM response-time
                    analysis driver;
* `simulation.py` — the tick-stepped `Scheduler` (release, dispatch,
                    preemption bookkeeping, execution, completion) and
                    the result aggregation `analyze_results`;
* `main.py`       — the CSV row loader `load_tasks_from_csv`.

Python integers are embedded as `Int`, exact rational arithmetic (`ℚ`)
stands in for Python float arithmetic where the values involved are
ratios of integers, and Python exceptions are made explicit through
`Option`/dedicated result types.  Each embedded definition carries a
comment pointing at the source lines it reflects.
-/

namespace RTS

/-- `Task` from model.py: a static task descriptor.  `priority`: lower
number = higher priority.  (Namespaced because Lean core already has a
`Task` type.) -/
structure Task where
  name : String
  id : Int
  bcet : Int
  wcet : Int
  period : Int
  deadline : Int
  priority : Int
deriving Repr, DecidableEq

/-- `Job` from model.py: one instance per periodic release of a task.
`start_time` and `finish_time` use the sentinel `-1` for "unset". -/
structure Job where
  task_id : Int
  job_id : Int
  arrival_time : Int
  absolute_deadline : Int
  remaining_time : Int
  start_time : Int := -1
  finish_time : Int := -1
deriving Repr, DecidableEq

/-- `Job.response_time` from model.py: `None` (here `none`) until the job
has finished, otherwise `finish_time - arrival_time`. -/
def Job.response_time (j : Job) : Option Int :=
  if j.finish_time = -1 then none else some (j.finish_time - j.arrival_time)

/-- `Job.is_missed` from model.py: `False` while unfinished, otherwise
`finish_time > absolute_deadline`. -/
def Job.is_missed (j : Job) : Bool :=
  if j.finish_time = -1 then false else decide (j.absolute_deadline < j.finish_time)

/-- `Task.utilization` composed over a task list:
`calculate_utilization` from analysis.py.  Python computes the sum with
float division `wcet / period`; we use exact rational division. -/
def calculate_utilization (tasks : List Task) : ℚ :=
  (tasks.map (fun t => (t.wcet : ℚ) / (t.period : ℚ))).sum

/-- `check_ll_bound` from analysis.py.  Python computes
`bound = n * (2**(1/n) - 1)` in floating point; the subterm `1/n` raises
`ZeroDivisionError` when the task set is empty, which we model as `none`.
For `n ≥ 1` the float comparison `u <= bound` is modelled by the exact
real equivalent `(u/n + 1)^n ≤ 2` (for `u ≥ 0` and `n ≥ 1`,
`u ≤ n·(2^(1/n) − 1)` iff `(u/n + 1)^n ≤ 2`), a decidable rational test;
the irrational bound value itself is not representable exactly, so the
embedded result carries the pass/fail flag and the utilization. -/
def check_ll_bound (tasks : List Task) : Option (Bool × ℚ) :=
  let n := tasks.length
  let u := calculate_utilization tasks
  if n = 0 then none
  else some (decide ((u / (n : ℚ) + 1) ^ n ≤ 2), u)

/-- Exact ceiling division `math.ceil(a / b)` for a positive divisor `b`,
as used in the interference term of `calculate_exact_wcrt_rm`
(analysis.py line 31).  Python computes `math.ceil` of a float quotient;
for `b > 0` the exact value is `(a + b - 1) / b` with floor division. -/
def ceilDiv (a b : Int) : Int := Int.ediv (a + b - 1) b

/-- The interference sum of analysis.py lines 29–31:
`Sum(ceil(R / Tj) * Cj)` over the higher-priority tasks. -/
def interferenceOf (hp : List Task) (R : Int) : Int :=
  (hp.map (fun h => ceilDiv R h.period * h.wcet)).sum

/-- One iteration of the fixed-point loop of `calculate_exact_wcrt_rm`:
`R_new = C + interference(R_curr)` (analysis.py line 33). -/
def wcrtStep (C : Int) (hp : List Task) (R : Int) : Int :=
  C + interferenceOf hp R

/-- The body of the `while True` loop of `calculate_exact_wcrt_rm`
(analysis.py lines 28–41), with explicit fuel standing in for the
unbounded loop: compute `R_new`; return it if it exceeds the deadline
(unschedulable) or if it equals `R_curr` (converged), otherwise continue
from `R_new`. -/
def wcrtAux (C D : Int) (hp : List Task) : Nat → Int → Option Int
  | 0, _ => none
  | fuel + 1, R =>
    let Rnew := wcrtStep C hp R
    if D < Rnew then some Rnew
    else if Rnew = R then some Rnew
    else wcrtAux C D hp fuel Rnew

/-- `calculate_exact_wcrt_rm` from analysis.py: the fixed-point iteration
starts at `R_curr = task.wcet`.  The Python loop has no iteration cap;
the fuel `task.deadline.toNat + 1` is proved sufficient under the data
model preconditions (`wcrt_terminates_of_pos` below), so `some` answers
coincide with what the unbounded loop returns. -/
def calculate_exact_wcrt_rm (task : Task) (hp : List Task) : Option Int :=
  wcrtAux task.wcet task.deadline hp (task.deadline.toNat + 1) task.wcet

/-- The sequence of candidate response times visited by the fixed-point
loop: `R_0 = C`, `R_{n+1} = C + interference(R_n)`. -/
def wcrtSeq (C : Int) (hp : List Task) : Nat → Int
  | 0 => C
  | n + 1 => wcrtStep C hp (wcrtSeq C hp n)

/-- The sort key of `perform_rm_analysis` (analysis.py line 50):
`key=lambda x: (x.period, x.id)` in strict lexicographic order.  Python's
`sorted` is a stable sort; `List.insertionSort` with the strict key
comparison is likewise stable. -/
def rmKeyLt (a b : Task) : Prop :=
  a.period < b.period ∨ (a.period = b.period ∧ a.id < b.id)

instance : DecidableRel rmKeyLt := fun a b => by
  unfold rmKeyLt; infer_instance

/-- One per-task record of the `results` dict built by
`perform_rm_analysis` (analysis.py lines 54–63). -/
structure RTARecord where
  period : Int
  wcet : Int
  wcrt : Int
  schedulable : Bool
deriving Repr, DecidableEq

/-- The analysis loop of `perform_rm_analysis` (analysis.py lines 54–63):
walks the period-sorted list, handing each task the strictly
higher-priority tasks sorted before it (`sorted_tasks[:i]`). -/
def rmAnalysisGo : List Task → List Task → Option (List (Int × RTARecord))
  | _, [] => some []
  | hp, task :: rest =>
    match calculate_exact_wcrt_rm task hp, rmAnalysisGo (hp ++ [task]) rest with
    | some wcrt, some out =>
        some ((task.id, ⟨task.period, task.wcet, wcrt, decide (wcrt ≤ task.deadline)⟩) :: out)
    | _, _ => none

/-- `perform_rm_analysis` from analysis.py: sort by `(period, id)`, then
run the response-time analysis top-down.  The Python `results` dict keyed
by `task.id` is embedded as the association list built in the same
order. -/
def perform_rm_analysis (tasks : List Task) : Option (List (Int × RTARecord)) :=
  rmAnalysisGo [] (tasks.insertionSort rmKeyLt)

/-- The `Scheduler` state of simulation.py lines 5–29 (the `current_job`
local of `run` is threaded separately, see `Scheduler.step`). -/
structure Scheduler where
  tasks : List Task
  algorithm : String
  time : Int
  ready_queue : List Job
  history : List (Nat × Option Int)
  completed_jobs : List Job
  hyperperiod : Int
deriving Repr, DecidableEq

/-- `math.lcm(*periods) if periods else 0` (simulation.py line 16).
`math.lcm` of Python ints folds the (non-negative) lcm over the list. -/
def hyperperiodOf (tasks : List Task) : Int :=
  match tasks.map Task.period with
  | [] => 0
  | p :: ps => (p :: ps).foldl (fun a q => ((Int.lcm a q : Nat) : Int)) 1

/-- The DM branch of `Scheduler.__init__` (simulation.py lines 25–29):
sort the (deep-copied) tasks by deadline — Python's `sort` is stable, as
is `insertionSort` with a strict key — then overwrite each priority with
its index.  Note the corresponding RM branch (lines 19–24) is commented
out in the source, so under RM the user-supplied priorities are kept. -/
def dmAssign (tasks : List Task) : List Task :=
  ((tasks.insertionSort (fun a b => a.deadline < b.deadline)).enum).map
    (fun p => { p.2 with priority := (p.1 : Int) })

/-- `Scheduler.__init__` (simulation.py lines 6–29).  `copy.deepcopy` is
the identity on immutable values.  The hyperperiod is computed from the
task list before the DM reordering, exactly as in the source. -/
def Scheduler.init (tasks : List Task) (algorithm : String) : Scheduler :=
  { tasks := if algorithm = "DM" then dmAssign tasks else tasks
    algorithm := algorithm
    time := 0
    ready_queue := []
    history := []
    completed_jobs := []
    hyperperiod := hyperperiodOf tasks }

/-- `Scheduler.get_task` (simulation.py lines 44–49): linear scan for the
first task with the given id; Python raises `ValueError` when absent. -/
def Scheduler.get_task (s : Scheduler) (task_id : Int) : Option Task :=
  s.tasks.find? (fun t => t.id == task_id)

/-- The key extracted for a ready job under RM/DM:
`self.get_task(j.task_id).priority` (simulation.py line 37).  Python
raises `ValueError` when the id is absent from the scheduler's task set;
inside `run` the ready queue only ever holds jobs released from
`s.tasks`, so the lookup always succeeds and the default is never
reached. -/
def Scheduler.taskPrio (s : Scheduler) (task_id : Int) : Int :=
  ((s.get_task task_id).map Task.priority).getD 0

/-- Python's `min(queue, key=...)` scan: returns the index and value of
the first element whose key is minimal (later elements replace the
running best only when strictly smaller). -/
def minIdxGo (key : Job → Int) : List Job → Nat → Nat × Job → Nat × Job
  | [], _, best => best
  | x :: xs, i, best =>
    if key x < key best.2 then minIdxGo key xs (i + 1) (i, x)
    else minIdxGo key xs (i + 1) best

/-- `min` over a non-empty list with a key, keeping the index of the
chosen element (Python mutates the chosen object in place; the index
lets the functional embedding write the update back). -/
def minIdxBy (key : Job → Int) (j : Job) (js : List Job) : Nat × Job :=
  minIdxGo key js 1 (0, j)

/-- `Scheduler._get_active_job` (simulation.py lines 31–42): `None` on an
empty ready queue; under RM/DM the ready job with minimum static task
priority; under EDF the ready job with minimum absolute deadline; `None`
for any other algorithm string (the final `return None`). -/
def Scheduler.activeJob (s : Scheduler) : Option (Nat × Job) :=
  match s.ready_queue with
  | [] => none
  | j :: js =>
    if s.algorithm = "RM" ∨ s.algorithm = "DM" then
      some (minIdxBy (fun x => s.taskPrio x.task_id) j js)
    else if s.algorithm = "EDF" then
      some (minIdxBy (fun x => x.absolute_deadline) j js)
    else none

/-- Step 1 of the per-tick loop (simulation.py lines 62–72): release a
job for every task whose period divides the current tick.  The release
index is `int(t / task.period)` (float division truncated; exact for the
divisible, non-negative case). -/
def releasesAt (tasks : List Task) (t : Nat) : List Job :=
  tasks.filterMap (fun task =>
    if (t : Int) % task.period = 0 then
      some { task_id := task.id
             job_id := (t : Int) / task.period
             arrival_time := (t : Int)
             absolute_deadline := (t : Int) + task.deadline
             remaining_time := task.wcet }
    else none)

/-- The scheduler state after the release phase of tick `t`. -/
def Scheduler.afterRel (s : Scheduler) (t : Nat) : Scheduler :=
  { s with time := (t : Int), ready_queue := s.ready_queue ++ releasesAt s.tasks t }

/-- Step 3, the context-switch bookkeeping (simulation.py lines 77–82):
when the selected job differs from the previously running one and has
never started, stamp its start time with the current tick.  (The Python
`!=` on dataclasses is field-value equality, as is `≠` here.) -/
def dispatchUpd (cur : Option Job) (t : Nat) (j0 : Job) : Job :=
  if some j0 ≠ cur ∧ j0.start_time = -1
  then { j0 with start_time := (t : Int) } else j0

/-- Steps 3–4 applied to the selected job: context-switch bookkeeping,
then one time unit of execution (`remaining_time -= 1`,
simulation.py line 87). -/
def execUpd (cur : Option Job) (t : Nat) (j0 : Job) : Job :=
  { dispatchUpd cur t j0 with
    remaining_time := (dispatchUpd cur t j0).remaining_time - 1 }

/-- One iteration of the `for t in range(duration)` loop of
`Scheduler.run` (simulation.py lines 59–96), threading the `current_job`
local.  Python compares and removes jobs by dataclass value equality and
mutates the selected job in place; the embedding updates the queue at the
index returned by the `min` scan.  On completion the finish time is set
to `t + 1` before the job is moved to the completed list, `remove`
(value-based, first match) takes it out of the ready queue, and
`current_job` is reset to `None`. -/
def Scheduler.step (s : Scheduler) (cur : Option Job) (t : Nat) : Scheduler × Option Job :=
  let s1 := s.afterRel t
  match s1.activeJob with
  | none =>
    ({ s1 with history := s1.history ++ [(t, none)] }, none)
  | some (i, j0) =>
    let j2 := execUpd cur t j0
    if j2.remaining_time = 0 then
      let j3 := { j2 with finish_time := (t : Int) + 1 }
      ({ s1 with ready_queue := (s1.ready_queue.set i j3).erase j3
                 history := s1.history ++ [(t, some j3.task_id)]
                 completed_jobs := s1.completed_jobs ++ [j3] }, none)
    else
      ({ s1 with ready_queue := s1.ready_queue.set i j2
                 history := s1.history ++ [(t, some j2.task_id)] }, some j2)

/-- The tick loop of `Scheduler.run` over an explicit list of ticks. -/
def Scheduler.runAux : Scheduler → Option Job → List Nat → Scheduler × Option Job
  | s, cur, [] => (s, cur)
  | s, cur, t :: ts =>
    let p := Scheduler.step s cur t
    Scheduler.runAux p.1 p.2 ts

/-- `Scheduler.run` (simulation.py lines 51–98) for an explicit duration
(`run(duration)`; the `None` default substitutes the hyperperiod at the
call site).  The Python method returns `(completed_jobs, history)` and
leaves the final state on the object; the embedding returns the final
state, from which both are read off. -/
def Scheduler.run (s : Scheduler) (duration : Nat) : Scheduler :=
  (Scheduler.runAux s none (List.range duration)).1

/-- The simulation state (and `current_job`) after the first `n` ticks of
a run of `Scheduler.init tasks alg`. -/
def stateAt (tasks : List Task) (alg : String) (n : Nat) : Scheduler × Option Job :=
  Scheduler.runAux (Scheduler.init tasks alg) none (List.range n)

/-- The task executed at tick `i` of a run: the dispatch decision taken
on the tick-`i` state after its release phase (this is exactly the id
recorded in the tick-`i` trace entry). -/
def executedTaskAt (tasks : List Task) (alg : String) (i : Nat) : Option Int :=
  (((stateAt tasks alg i).1.afterRel i).activeJob).map (fun p => p.2.task_id)

/-- Every job the scheduler still knows about: the ready queue plus the
completed list. -/
def Scheduler.allJobs (s : Scheduler) : List Job :=
  s.ready_queue ++ s.completed_jobs

/-- One row of the `stats` dict of `Scheduler.analyze_results`
(simulation.py lines 100–122). -/
structure TaskStats where
  sim_wcrt : Int
  sim_avg_rt : ℚ
  missed : Nat
deriving Repr, DecidableEq

/-- The per-task body of `analyze_results` (simulation.py lines 103–120):
zero stats when the task completed no jobs; otherwise the max and mean of
the jobs' response times and the count of missed jobs.  Python's
`max`/`sum` over `j.response_time` would raise a `TypeError` on a `None`
response time (an unfinished job), modelled as `none`; completed jobs are
always finished (`completed_finish_pos` below). -/
def taskStat : List Job → Option TaskStats
  | [] => some ⟨0, 0, 0⟩
  | j0 :: rest =>
    match j0.response_time, rest.mapM Job.response_time with
    | some r0, some rs =>
        some ⟨rs.foldl max r0,
              (((r0 :: rs).sum : ℚ) / (((j0 :: rest).length : Nat) : ℚ)),
              (j0 :: rest).countP (fun j => j.is_missed)⟩
    | _, _ => none

/-- The task loop of `analyze_results`: one stats row per task, in task
order (the Python dict is keyed by `task.id`; the association list keeps
the same keys in iteration order). -/
def analyzeGo (completed : List Job) : List Task → Option (List (Int × TaskStats))
  | [] => some []
  | task :: rest =>
    match taskStat (completed.filter (fun j => j.task_id == task.id)),
          analyzeGo completed rest with
    | some st, some out => some ((task.id, st) :: out)
    | _, _ => none

/-- `Scheduler.analyze_results` (simulation.py lines 100–122). -/
def Scheduler.analyze_results (s : Scheduler) : Option (List (Int × TaskStats)) :=
  analyzeGo s.completed_jobs s.tasks

/-- One CSV data row as handed out by `csv.DictReader`: an association
from column name to raw field text (columns absent from the header are
simply absent from the row). -/
def Row : Type := List (String × String)

/-- `row.get(k)` on a DictReader row: `None` when the column is absent. -/
def rowGet (row : Row) (k : String) : Option String :=
  (row.find? (fun p => p.1 == k)).map (fun p => p.2)

/-- The exceptions that can escape one row of `load_tasks_from_csv`.
`keyError` and `valueError` are caught by the function's `except` arms;
`typeError` is not caught and propagates to the caller. -/
inductive LoadErr where
  | keyError (col : String)
  | valueError (text : String)
  | typeError (msg : String)
deriving Repr, DecidableEq

/-- `row['k']` bracket access: raises `KeyError` when the column is
absent. -/
def rowItem (row : Row) (k : String) : Except LoadErr String :=
  match rowGet row k with
  | some v => .ok v
  | none => .error (.keyError k)

/-- The numeric value of a decimal digit character, `none` otherwise. -/
def digitVal (c : Char) : Option Nat :=
  if c.isDigit then some (c.toNat - '0'.toNat) else none

/-- Accumulate a decimal digit string into a natural number; `none` as
soon as a non-digit appears. -/
def parseDigits : List Char → Nat → Option Nat
  | [], acc => some acc
  | c :: cs, acc =>
    match digitVal c with
    | some d => parseDigits cs (acc * 10 + d)
    | none => none

/-- Python `int(s)` on a string: the integer value of an optionally
signed decimal literal (the form the tool's CSV fields take), and a
`ValueError` otherwise. -/
def pyParseInt (s : String) : Option Int :=
  match s.data with
  | [] => none
  | '-' :: cs =>
    match cs with
    | [] => none
    | _ => (parseDigits cs 0).map (fun n => -(n : Int))
  | '+' :: cs =>
    match cs with
    | [] => none
    | _ => (parseDigits cs 0).map (fun n => (n : Int))
  | cs => (parseDigits cs 0).map (fun n => (n : Int))

/-- `int(s)` lifted to the row loader's error discipline. -/
def pyIntS (s : String) : Except LoadErr Int :=
  match pyParseInt s with
  | some n => .ok n
  | none => .error (.valueError s)

/-- Python `int(x)` on an optional string: `int(None)` raises
`TypeError` (which `load_tasks_from_csv` does not catch). -/
def pyIntOpt (x : Option String) : Except LoadErr Int :=
  match x with
  | none => .error (.typeError "int() argument must be a string, not NoneType")
  | some s => pyIntS s

/-- One iteration of the row loop of `load_tasks_from_csv` (main.py
lines 27–38).  `ok none` is the `continue` for rows whose `Task` field is
missing or blank (falsy).  Field expressions are evaluated left to right
exactly as in the `Task(...)` call: `int(row['Task'])`,
`int(row.get('BCET'))`, `int(row['WCET'])`, `int(row['Period'])`,
`int(row['Deadline'])`, `int(row.get('Priority'))`.  When all six
evaluate, the call `Task(id=..., ...)` itself raises `TypeError`, because
the dataclass's required `name` field is never passed (model.py line 5 /
main.py lines 31–38), so a fully well-formed row also raises. -/
def parseRow (row : Row) : Except LoadErr (Option Task) :=
  match rowGet row "Task" with
  | none => .ok none
  | some v =>
    if v = "" then .ok none
    else do
      let _id ← pyIntS (← rowItem row "Task")
      let _bcet ← pyIntOpt (rowGet row "BCET")
      let _wcet ← pyIntS (← rowItem row "WCET")
      let _period ← pyIntS (← rowItem row "Period")
      let _deadline ← pyIntS (← rowItem row "Deadline")
      let _priority ← pyIntOpt (rowGet row "Priority")
      .error (.typeError "Task.__init__() missing 1 required positional argument: name")

/-- The observable outcome of `load_tasks_from_csv` (main.py lines
20–48): a normal return of the accumulated task list, a caught
`KeyError`/`ValueError` (a descriptive message is printed and the
function returns the empty list), or an uncaught exception propagating to
the caller. -/
inductive LoadResult where
  | ok (tasks : List Task)
  | handled (msg : String)
  | uncaught (msg : String)
deriving Repr, DecidableEq

/-- The row loop of `load_tasks_from_csv`, folding `parseRow` over the
data rows.  A caught error abandons the partial list and reports zero
tasks; an uncaught `TypeError` escapes. -/
def loadGo (acc : List Task) : List Row → LoadResult
  | [] => .ok acc.reverse
  | row :: rest =>
    match parseRow row with
    | .ok none => loadGo acc rest
    | .ok (some task) => loadGo (task :: acc) rest
    | .error (.keyError col) => .handled ("Error parsing CSV: Missing column " ++ col)
    | .error (.valueError text) => .handled ("Error parsing CSV value: " ++ text)
    | .error (.typeError msg) => .uncaught msg

/-- `load_tasks_from_csv` from main.py, on the parsed rows of an open
file (the `FileNotFoundError` arm concerns the operating system, not the
row data, and is outside this model). -/
def load_tasks_from_csv (rows : List Row) : LoadResult :=
  loadGo [] rows

/-! ### Lemmas about the WCRT fixed-point solver -/

lemma ceilDiv_nonneg {a b : Int} (ha : 0 ≤ a) (hb : 0 < b) : 0 ≤ ceilDiv a b := by
  unfold ceilDiv
  exact Int.ediv_nonneg (by omega) (by omega)

lemma ceilDiv_mono {a a' b : Int} (hb : 0 < b) (h : a ≤ a') :
    ceilDiv a b ≤ ceilDiv a' b := by
  unfold ceilDiv
  exact Int.ediv_le_ediv hb (by omega)

lemma interferenceOf_nonneg {hp : List Task} {R : Int}
    (hhp : ∀ h ∈ hp, 0 < h.period ∧ 0 ≤ h.wcet) (hR : 0 ≤ R) :
    0 ≤ interferenceOf hp R := by
  unfold interferenceOf
  apply List.sum_nonneg
  intro x hx
  rcases List.mem_map.mp hx with ⟨h, hmem, rfl⟩
  exact mul_nonneg (ceilDiv_nonneg hR (hhp h hmem).1) (hhp h hmem).2

lemma interferenceOf_mono {hp : List Task} {R R' : Int}
    (hhp : ∀ h ∈ hp, 0 < h.period ∧ 0 ≤ h.wcet) (h : R ≤ R') :
    interferenceOf hp R ≤ interferenceOf hp R' := by
  unfold interferenceOf
  apply List.sum_le_sum
  intro i hi
  exact mul_le_mul_of_nonneg_right (ceilDiv_mono (hhp i hi).1 h) (hhp i hi).2

lemma wcrtStep_mono {C : Int} {hp : List Task} {R R' : Int}
    (hhp : ∀ h ∈ hp, 0 < h.period ∧ 0 ≤ h.wcet) (h : R ≤ R') :
    wcrtStep C hp R ≤ wcrtStep C hp R' := by
  unfold wcrtStep
  exact add_le_add_left (interferenceOf_mono hhp h) C

lemma le_wcrtStep_self {C : Int} {hp : List Task}
    (hhp : ∀ h ∈ hp, 0 < h.period ∧ 0 ≤ h.wcet) (hC : 0 ≤ C) :
    C ≤ wcrtStep C hp C := by
  unfold wcrtStep
  have := interferenceOf_nonneg hhp hC
  omega

lemma wcrtSeq_mono {C : Int} {hp : List Task}
    (hhp : ∀ h ∈ hp, 0 < h.period ∧ 0 ≤ h.wcet) (hC : 0 ≤ C) (n : Nat) :
    wcrtSeq C hp n ≤ wcrtSeq C hp (n + 1) := by
  induction n with
  | zero => exact le_wcrtStep_self hhp hC
  | succ n ih => exact wcrtStep_mono hhp ih

lemma wcrtAux_isSome {C D : Int} {hp : List Task}
    (hhp : ∀ h ∈ hp, 0 < h.period ∧ 0 ≤ h.wcet) :
    ∀ (fuel : Nat) (R : Int), 0 ≤ R → R ≤ wcrtStep C hp R →
      (D - R).toNat < fuel → (wcrtAux C D hp fuel R).isSome := by
  intro fuel
  induction fuel with
  | zero => intro R _ _ hlt; omega
  | succ fuel ih =>
    intro R hR hstep hlt
    unfold wcrtAux
    by_cases h1 : D < wcrtStep C hp R
    · simp [h1]
    · by_cases h2 : wcrtStep C hp R = R
      · simp [h1, h2]
      · simp only [h1, h2, if_false]
        have hRlt : R < wcrtStep C hp R := lt_of_le_of_ne hstep (fun e => h2 e.symm)
        apply ih (wcrtStep C hp R) (by omega)
        · exact wcrtStep_mono hhp hstep
        · omega

/-! ### Lemmas about the tick loop -/

lemma runAux_append (ts us : List Nat) : ∀ (s : Scheduler) (cur : Option Job),
    Scheduler.runAux s cur (ts ++ us) =
      Scheduler.runAux (Scheduler.runAux s cur ts).1 (Scheduler.runAux s cur ts).2 us := by
  induction ts with
  | nil => intro s cur; rfl
  | cons t ts ih =>
    intro s cur
    show Scheduler.runAux (Scheduler.step s cur t).1 (Scheduler.step s cur t).2 (ts ++ us) = _
    rw [ih]
    rfl

lemma stateAt_zero (tasks : List Task) (alg : String) :
    stateAt tasks alg 0 = (Scheduler.init tasks alg, none) := rfl

lemma stateAt_succ (tasks : List Task) (alg : String) (n : Nat) :
    stateAt tasks alg (n + 1) =
      Scheduler.step (stateAt tasks alg n).1 (stateAt tasks alg n).2 n := by
  unfold stateAt
  rw [List.range_succ, runAux_append]
  rfl

lemma execUpd_task_id (cur : Option Job) (t : Nat) (j0 : Job) :
    (execUpd cur t j0).task_id = j0.task_id := by
  unfold execUpd dispatchUpd; split <;> rfl

lemma execUpd_job_id (cur : Option Job) (t : Nat) (j0 : Job) :
    (execUpd cur t j0).job_id = j0.job_id := by
  unfold execUpd dispatchUpd; split <;> rfl

lemma execUpd_start_cases (cur : Option Job) (t : Nat) (j0 : Job) :
    (execUpd cur t j0).start_time = j0.start_time ∨
      ((execUpd cur t j0).start_time = (t : Int) ∧ j0.start_time = -1 ∧ some j0 ≠ cur) := by
  unfold execUpd dispatchUpd
  split
  case isTrue h => exact Or.inr ⟨rfl, h.2, h.1⟩
  case isFalse h => exact Or.inl rfl

lemma execUpd_start_of_ne {j0 : Job} (cur : Option Job) (t : Nat)
    (h : j0.start_time ≠ -1) : (execUpd cur t j0).start_time = j0.start_time := by
  unfold execUpd dispatchUpd
  split
  case isTrue hc => exact absurd hc.2 h
  case isFalse hc => rfl

lemma step_history (s : Scheduler) (cur : Option Job) (t : Nat) :
    (Scheduler.step s cur t).1.history =
      s.history ++ [(t, ((s.afterRel t).activeJob).map (fun p => p.2.task_id))] := by
  simp only [Scheduler.step]
  split
  next heq =>
    simp [Scheduler.afterRel] at heq ⊢
    simp [heq]
  next x i j0 heq =>
    simp [Scheduler.afterRel] at heq ⊢
    simp only [heq]
    split <;> simp [execUpd_task_id]

lemma history_len (tasks : List Task) (alg : String) :
    ∀ n, (stateAt tasks alg n).1.history.length = n := by
  intro n
  induction n with
  | zero => rfl
  | succ n ih => rw [stateAt_succ, step_history]; simp [ih]

lemma history_get (tasks : List Task) (alg : String) :
    ∀ n i, i < n →
      (stateAt tasks alg n).1.history.get? i = some (i, executedTaskAt tasks alg i) := by
  intro n
  induction n with
  | zero => intro i h; omega
  | succ n ih =>
    intro i h
    rw [stateAt_succ, step_history]
    rcases Nat.lt_or_ge i n with hlt | hge
    · rw [List.get?_append (by rw [history_len]; exact hlt)]
      exact ih i hlt
    · have hi : i = n := by omega
      subst hi
      rw [List.get?_append_right (by rw [history_len])]
      rw [history_len]
      simp [executedTaskAt]

lemma activeJob_of_nil {s : Scheduler} (h : s.ready_queue = []) :
    s.activeJob = none := by
  unfold Scheduler.activeJob
  rw [h]

lemma activeJob_other {s : Scheduler} (h1 : s.algorithm ≠ "RM") (h2 : s.algorithm ≠ "DM")
    (h3 : s.algorithm ≠ "EDF") : s.activeJob = none := by
  unfold Scheduler.activeJob
  cases s.ready_queue with
  | nil => rfl
  | cons j js => simp [h1, h2, h3]

lemma stateAt_other (tasks : List Task) (alg : String)
    (h1 : alg ≠ "RM") (h2 : alg ≠ "DM") (h3 : alg ≠ "EDF") : ∀ n,
    (stateAt tasks alg n).2 = none ∧
    (stateAt tasks alg n).1.algorithm = alg ∧
    (stateAt tasks alg n).1.tasks = tasks ∧
    (stateAt tasks alg n).1.history = (List.range n).map (fun i => (i, (none : Option Int))) ∧
    (stateAt tasks alg n).1.completed_jobs = [] ∧
    (stateAt tasks alg n).1.ready_queue =
      (List.range n).foldl (fun q t => q ++ releasesAt tasks t) [] := by
  intro n
  induction n with
  | zero =>
    refine ⟨rfl, ?_, ?_, rfl, rfl, rfl⟩
    · rfl
    · show (Scheduler.init tasks alg).tasks = tasks
      simp [Scheduler.init, h2]
  | succ n ih =>
    obtain ⟨ihc, ihalg, ihtasks, ihh, ihcomp, ihq⟩ := ih
    rw [stateAt_succ, ihc]
    have hact : ((stateAt tasks alg n).1.afterRel n).activeJob = none := by
      apply activeJob_other <;> simp [Scheduler.afterRel, ihalg, h1, h2, h3]
    simp only [Scheduler.step, hact]
    refine ⟨trivial, ihalg, ihtasks, ?_, ihcomp, ?_⟩
    · show (stateAt tasks alg n).1.history ++ [(n, none)] = _
      rw [ihh, List.range_succ]
      simp
    · show (stateAt tasks alg n).1.ready_queue ++
        releasesAt (stateAt tasks alg n).1.tasks n = _
      rw [ihq, ihtasks, List.range_succ, List.foldl_append]
      rfl

lemma run_eq_stateAt (tasks : List Task) (alg : String) (d : Nat) :
    (Scheduler.init tasks alg).run d = (stateAt tasks alg d).1 := rfl

lemma stateAt_nil_tasks (alg : String) : ∀ n,
    (stateAt [] alg n).2 = none ∧
    (stateAt [] alg n).1.tasks = [] ∧
    (stateAt [] alg n).1.ready_queue = [] ∧
    (stateAt [] alg n).1.completed_jobs = [] := by
  intro n
  induction n with
  | zero =>
    refine ⟨rfl, ?_, rfl, rfl⟩
    show (Scheduler.init [] alg).tasks = []
    unfold Scheduler.init dmAssign
    split <;> rfl
  | succ n ih =>
    obtain ⟨ihc, ihtasks, ihq, ihcomp⟩ := ih
    rw [stateAt_succ, ihc]
    have hact : ((stateAt [] alg n).1.afterRel n).activeJob = none := by
      apply activeJob_of_nil
      show (stateAt [] alg n).1.ready_queue ++ releasesAt (stateAt [] alg n).1.tasks n = []
      rw [ihq, ihtasks]
      rfl
    simp only [Scheduler.step, hact]
    refine ⟨trivial, ihtasks, ?_, ihcomp⟩
    show (stateAt [] alg n).1.ready_queue ++ releasesAt (stateAt [] alg n).1.tasks n = []
    rw [ihq, ihtasks]
    rfl

lemma step_completed_new (s : Scheduler) (cur : Option Job) (t : Nat) :
    ∀ j ∈ (Scheduler.step s cur t).1.completed_jobs,
      j ∈ s.completed_jobs ∨ 0 < j.finish_time := by
  intro j
  simp only [Scheduler.step]
  split
  · intro hj
    exact Or.inl hj
  · split
    · intro hj
      rcases List.mem_append.mp hj with h | h
      · exact Or.inl h
      · rcases List.mem_singleton.mp h with rfl
        right
        show (0 : Int) < (t : Int) + 1
        omega
    · intro hj
      exact Or.inl hj

lemma completed_finish_pos (tasks : List Task) (alg : String) :
    ∀ n, ∀ j ∈ (stateAt tasks alg n).1.completed_jobs, 0 < j.finish_time := by
  intro n
  induction n with
  | zero => intro j hj; simp [stateAt, Scheduler.runAux, Scheduler.init] at hj
  | succ n ih =>
    intro j hj
    rw [stateAt_succ] at hj
    rcases step_completed_new _ _ _ j hj with h | h
    · exact ih j h
    · exact h

/-! ### Lemmas about job identity and start times across steps -/

lemma minIdxGo_get (key : Job → Int) :
    ∀ (xs : List Job) (n : Nat) (b : Nat × Job) (full : List Job),
      full.get? b.1 = some b.2 → (∀ k, xs.get? k = full.get? (n + k)) →
      full.get? (minIdxGo key xs n b).1 = some (minIdxGo key xs n b).2 := by
  intro xs
  induction xs with
  | nil => intro n b full hb _; exact hb
  | cons x xs ih =>
    intro n b full hb hoff
    have hx : full.get? n = some x := by
      have := hoff 0
      simpa using this.symm
    have hoff' : ∀ k, xs.get? k = full.get? (n + 1 + k) := by
      intro k
      have := hoff (k + 1)
      simpa [Nat.add_assoc, Nat.add_comm 1 k] using this
    show full.get? (minIdxGo key (x :: xs) n b).1 = some (minIdxGo key (x :: xs) n b).2
    unfold minIdxGo
    split
    · exact ih (n + 1) (n, x) full hx hoff'
    · exact ih (n + 1) b full hb hoff'

lemma activeJob_get {s : Scheduler} {i : Nat} {j : Job}
    (h : s.activeJob = some (i, j)) : s.ready_queue.get? i = some j := by
  unfold Scheduler.activeJob at h
  split at h
  next hq => cases h
  next j0 js hq =>
    rw [hq]
    have hoff : ∀ k, js.get? k = (j0 :: js).get? (1 + k) := by
      intro k
      simp [Nat.add_comm 1 k]
    split at h
    next halg =>
      have hmin := Option.some.inj h
      unfold minIdxBy at hmin
      have hspec := minIdxGo_get (fun x => s.taskPrio x.task_id) js 1 (0, j0)
        (j0 :: js) rfl hoff
      rw [hmin] at hspec
      exact hspec
    next halg =>
      split at h
      next hedf =>
        have hmin := Option.some.inj h
        unfold minIdxBy at hmin
        have hspec := minIdxGo_get (fun x => x.absolute_deadline) js 1 (0, j0)
          (j0 :: js) rfl hoff
        rw [hmin] at hspec
        exact hspec
      next => cases h

lemma mem_set_of_get : ∀ (q : List Job) (i : Nat) (j0 j2 x : Job),
    q.get? i = some j0 → x ∈ q → x ∈ q.set i j2 ∨ x = j0 := by
  intro q
  induction q with
  | nil => intro i j0 j2 x h hx; cases hx
  | cons a q ih =>
    intro i j0 j2 x hget hx
    cases i with
    | zero =>
      rcases List.mem_cons.mp hx with rfl | hx
      · exact Or.inr (Option.some.inj hget)
      · exact Or.inl (List.mem_cons_of_mem j2 hx)
    | succ i =>
      rcases List.mem_cons.mp hx with rfl | hx
      · exact Or.inl (List.mem_cons_self x (q.set i j2))
      · rcases ih i j0 j2 x hget hx with h | h
        · exact Or.inl (List.mem_cons_of_mem a h)
        · exact Or.inr h

lemma get_lt_length {q : List Job} {i : Nat} {j0 : Job}
    (h : q.get? i = some j0) : i < q.length :=
  List.get?_eq_some.mp h |>.1

lemma releasesAt_start {tasks : List Task} {t : Nat} :
    ∀ j ∈ releasesAt tasks t, j.start_time = -1 := by
  intro j hj
  unfold releasesAt at hj
  rcases List.mem_filterMap.mp hj with ⟨task, _, hmk⟩
  revert hmk
  split
  · intro hmk
    cases Option.some.inj hmk
    rfl
  · intro hmk; cases hmk

lemma mem_erase_or_eq {q : List Job} {x a : Job} (h : x ∈ q) :
    x ∈ q.erase a ∨ x = a := by
  by_cases hxa : x = a
  · exact Or.inr hxa
  · exact Or.inl ((List.mem_erase_of_ne hxa).mpr h)

lemma step_allJobs_retain (s : Scheduler) (cur : Option Job) (t : Nat) (x : Job)
    (hx : x ∈ s.allJobs) (hs : x.start_time ≠ -1) :
    ∃ y ∈ (Scheduler.step s cur t).1.allJobs,
      y.task_id = x.task_id ∧ y.job_id = x.job_id ∧ y.start_time = x.start_time := by
  unfold Scheduler.allJobs at hx
  rcases List.mem_append.mp hx with hq | hc
  all_goals simp only [Scheduler.step]
  case inr =>
    -- x sits in the completed list, which every branch only extends.
    split
    · exact ⟨x, by simp [Scheduler.allJobs, Scheduler.afterRel, hc], rfl, rfl, rfl⟩
    · split
      · exact ⟨x, by simp [Scheduler.allJobs, Scheduler.afterRel, hc], rfl, rfl, rfl⟩
      · exact ⟨x, by simp [Scheduler.allJobs, Scheduler.afterRel, hc], rfl, rfl, rfl⟩
  case inl =>
    -- x sits in the ready queue, hence in the post-release queue.
    have hq1 : x ∈ (s.afterRel t).ready_queue := by
      simp [Scheduler.afterRel]
      exact Or.inl hq
    split
    next heq =>
      exact ⟨x, by simp [Scheduler.allJobs]; exact Or.inl (by simpa [Scheduler.afterRel] using hq1), rfl, rfl, rfl⟩
    next p i j0 heq =>
      have hget : (s.afterRel t).ready_queue.get? i = some j0 := activeJob_get heq
      by_cases hxj : x = j0
      · -- x is the dispatched job itself: it survives as the updated job.
        subst hxj
        have hstart : (execUpd cur t x).start_time = x.start_time :=
          execUpd_start_of_ne cur t hs
        split
        next hrem =>
          -- completion: the updated job moves to the completed list
          refine ⟨{ execUpd cur t x with finish_time := (t : Int) + 1 }, ?_, ?_, ?_, ?_⟩
          · simp [Scheduler.allJobs, Scheduler.afterRel]
          · exact execUpd_task_id cur t x
          · exact execUpd_job_id cur t x
          · exact hstart
        next hrem =>
          refine ⟨execUpd cur t x, ?_, execUpd_task_id cur t x, execUpd_job_id cur t x, hstart⟩
          simp only [Scheduler.allJobs, List.mem_append]
          exact Or.inl (List.mem_set _ i (get_lt_length hget) _)
      · -- x is some other ready job: the queue update leaves it in place.
        split
        next hrem =>
          rcases mem_set_of_get _ i j0 { execUpd cur t j0 with finish_time := (t : Int) + 1 } x hget hq1 with hmem | hxeq
          · rcases mem_erase_or_eq (a := { execUpd cur t j0 with finish_time := (t : Int) + 1 }) hmem with hmem' | hxeq'
            · exact ⟨x, by simp [Scheduler.allJobs]; exact Or.inl hmem', rfl, rfl, rfl⟩
            · -- x equals the completed job value, which is appended to completed.
              exact ⟨x, by simp [Scheduler.allJobs, hxeq'], rfl, rfl, rfl⟩
          · exact absurd hxeq hxj
        next hrem =>
          rcases mem_set_of_get _ i j0 (execUpd cur t j0) x hget hq1 with hmem | hxeq
          · exact ⟨x, by simp [Scheduler.allJobs]; exact Or.inl hmem, rfl, rfl, rfl⟩
          · exact absurd hxeq hxj

lemma step_allJobs_src (s : Scheduler) (cur : Option Job) (t : Nat) (y : Job)
    (hy : y ∈ (Scheduler.step s cur t).1.allJobs) :
    (∃ x ∈ s.allJobs, x.task_id = y.task_id ∧ x.job_id = y.job_id ∧
        x.start_time = y.start_time) ∨
    y.start_time = -1 ∨
    (y.start_time = (t : Int) ∧
      ∃ i j0, (s.afterRel t).activeJob = some (i, j0) ∧ j0.start_time = -1 ∧
        some j0 ≠ cur ∧ y.task_id = j0.task_id ∧ y.job_id = j0.job_id) := by
  have hsrc : ∀ z : Job, z ∈ (s.afterRel t).ready_queue →
      (∃ x ∈ s.allJobs, x.task_id = z.task_id ∧ x.job_id = z.job_id ∧
        x.start_time = z.start_time) ∨ z.start_time = -1 := by
    intro z hz
    simp only [Scheduler.afterRel, List.mem_append] at hz
    rcases hz with hz | hz
    · exact Or.inl ⟨z, List.mem_append.mpr (Or.inl hz), rfl, rfl, rfl⟩
    · exact Or.inr (releasesAt_start z hz)
  simp only [Scheduler.step] at hy
  revert hy
  split
  next heq =>
    intro hy
    simp only [Scheduler.allJobs, List.mem_append] at hy
    rcases hy with hy | hy
    · rcases hsrc y (by simpa [Scheduler.afterRel] using hy) with h | h
      · exact Or.inl h
      · exact Or.inr (Or.inl h)
    · exact Or.inl ⟨y, List.mem_append.mpr (Or.inr hy), rfl, rfl, rfl⟩
  next p i j0 heq =>
    have hget : (s.afterRel t).ready_queue.get? i = some j0 := activeJob_get heq
    have hj0src := hsrc j0 (List.get?_mem hget)
    -- where the updated job's start time comes from
    have hupd : ∀ z : Job, z.task_id = (execUpd cur t j0).task_id →
        z.job_id = (execUpd cur t j0).job_id →
        z.start_time = (execUpd cur t j0).start_time →
        (∃ x ∈ s.allJobs, x.task_id = z.task_id ∧ x.job_id = z.job_id ∧
            x.start_time = z.start_time) ∨ z.start_time = -1 ∨
        (z.start_time = (t : Int) ∧
          ∃ i' j0', (s.afterRel t).activeJob = some (i', j0') ∧ j0'.start_time = -1 ∧
            some j0' ≠ cur ∧ z.task_id = j0'.task_id ∧ z.job_id = j0'.job_id) := by
      intro z hti hji hsi
      rcases execUpd_start_cases cur t j0 with hcase | hcase
      · -- start time untouched: inherit j0's provenance
        rcases hj0src with ⟨x, hxmem, hxt, hxj, hxs⟩ | hj0new
        · refine Or.inl ⟨x, hxmem, ?_, ?_, ?_⟩
          · rw [hti, execUpd_task_id]; exact hxt
          · rw [hji, execUpd_job_id]; exact hxj
          · rw [hsi, hcase]; exact hxs
        · exact Or.inr (Or.inl (by rw [hsi, hcase]; exact hj0new))
      · -- start time freshly stamped at this tick
        obtain ⟨hst, hneg, hne⟩ := hcase
        refine Or.inr (Or.inr ⟨by rw [hsi, hst], i, j0, heq, hneg, hne, ?_, ?_⟩)
        · rw [hti, execUpd_task_id]
        · rw [hji, execUpd_job_id]
    split
    next hrem =>
      intro hy
      simp only [Scheduler.allJobs, List.mem_append] at hy
      rcases hy with hy | hy
      · have hy' := List.erase_subset _ _ hy
        rcases List.mem_or_eq_of_mem_set hy' with hmem | hyeq
        · rcases hsrc y hmem with h | h
          · exact Or.inl h
          · exact Or.inr (Or.inl h)
        · subst hyeq
          exact hupd _ rfl rfl rfl
      · rcases hy with hy | hy
        · exact Or.inl ⟨y, List.mem_append.mpr (Or.inr hy), rfl, rfl, rfl⟩
        · rcases List.mem_singleton.mp hy with rfl
          exact hupd _ rfl rfl rfl
    next hrem =>
      intro hy
      simp only [Scheduler.allJobs, List.mem_append] at hy
      rcases hy with hy | hy
      · rcases List.mem_or_eq_of_mem_set hy with hmem | hyeq
        · rcases hsrc y hmem with h | h
          · exact Or.inl h
          · exact Or.inr (Or.inl h)
        · subst hyeq
          exact hupd _ rfl rfl rfl
      · exact Or.inl ⟨y, List.mem_append.mpr (Or.inr hy), rfl, rfl, rfl⟩

/-! ### Lemmas about the result aggregation -/

lemma mapM_response_time : ∀ (l : List Job), (∀ j ∈ l, j.finish_time ≠ -1) →
    l.mapM Job.response_time = some (l.map (fun j => j.finish_time - j.arrival_time)) := by
  intro l
  induction l with
  | nil => intro _; rfl
  | cons j rest ih =>
    intro h
    rw [List.mapM_cons]
    have hj : j.response_time = some (j.finish_time - j.arrival_time) := by
      unfold Job.response_time
      rw [if_neg (h j (List.mem_cons_self j rest))]
    rw [hj, ih (fun x hx => h x (List.mem_cons_of_mem j hx))]
    rfl

lemma le_foldl_max_init : ∀ (l : List Int) (a x : Int), x ≤ a → x ≤ l.foldl max a := by
  intro l
  induction l with
  | nil => intro a x h; exact h
  | cons b l ih =>
    intro a x h
    exact ih (max a b) x (le_trans h (le_max_left a b))

lemma le_foldl_max_mem : ∀ (l : List Int) (a x : Int), x ∈ l → x ≤ l.foldl max a := by
  intro l
  induction l with
  | nil => intro a x h; simp at h
  | cons b l ih =>
    intro a x h
    rcases List.mem_cons.mp h with rfl | h
    · exact le_foldl_max_init l (max a x) x (le_max_right a x)
    · exact ih (max a b) x h

lemma foldl_max_mem : ∀ (l : List Int) (a : Int), l.foldl max a = a ∨ l.foldl max a ∈ l := by
  intro l
  induction l with
  | nil => intro a; exact Or.inl rfl
  | cons b l ih =>
    intro a
    have hstep : List.foldl max a (b :: l) = List.foldl max (max a b) l := rfl
    rcases ih (max a b) with h | h
    · rcases max_choice a b with hm | hm
      · exact Or.inl (by rw [hstep, h, hm])
      · refine Or.inr ?_
        rw [hstep, h, hm]
        exact List.mem_cons_self b l
    · refine Or.inr ?_
      rw [hstep]
      exact List.mem_cons_of_mem b h

/-- The response times, `finish − arrival`, of a list of (finished)
jobs — the quantity the spec calls the response time of a completed
job. -/
def rtList (jobs : List Job) : List Int :=
  jobs.map (fun j => j.finish_time - j.arrival_time)

/-- The specification-side characterization of one task's aggregated
statistics row (spec §4.3): zeros when the task completed no jobs;
otherwise the observed WCRT is the maximum of the completed jobs'
response times, the average response time times the job count is the sum
of response times (arithmetic mean), and the missed count counts exactly
the completed jobs that are finished with `finish > absolute deadline`
(an unfinished job is never counted). -/
def StatSpec (jobs : List Job) (st : TaskStats) : Prop :=
  (jobs = [] → st = ⟨0, 0, 0⟩) ∧
  (jobs ≠ [] →
    (st.sim_wcrt ∈ rtList jobs ∧ ∀ r ∈ rtList jobs, r ≤ st.sim_wcrt) ∧
    st.sim_avg_rt * (jobs.length : ℚ) = ((rtList jobs).sum : ℚ) ∧
    st.missed = jobs.countP
      (fun j => !(j.finish_time == -1) && decide (j.absolute_deadline < j.finish_time)))

lemma is_missed_eq (j : Job) :
    j.is_missed = (!(j.finish_time == -1) && decide (j.absolute_deadline < j.finish_time)) := by
  unfold Job.is_missed
  by_cases h : j.finish_time = -1 <;> simp [h]

lemma taskStat_spec (jobs : List Job) (hfin : ∀ j ∈ jobs, j.finish_time ≠ -1) :
    ∃ st, taskStat jobs = some st ∧ StatSpec jobs st := by
  cases jobs with
  | nil => exact ⟨⟨0, 0, 0⟩, rfl, fun _ => rfl, fun h => absurd rfl h⟩
  | cons j0 rest =>
    have hj0 : j0.response_time = some (j0.finish_time - j0.arrival_time) := by
      unfold Job.response_time
      rw [if_neg (hfin j0 (List.mem_cons_self j0 rest))]
    have hrest : rest.mapM Job.response_time =
        some (rest.map (fun j => j.finish_time - j.arrival_time)) :=
      mapM_response_time rest (fun x hx => hfin x (List.mem_cons_of_mem j0 hx))
    refine ⟨_, by rw [taskStat, hj0, hrest], ?_, ?_⟩
    · intro h; cases h
    · intro _
      set r0 := j0.finish_time - j0.arrival_time with hr0
      set rs := rest.map (fun j => j.finish_time - j.arrival_time) with hrs
      have hlist : rtList (j0 :: rest) = r0 :: rs := rfl
      refine ⟨⟨?_, ?_⟩, ?_, ?_⟩
      · rw [hlist]
        rcases foldl_max_mem rs r0 with h | h
        · rw [h]; exact List.mem_cons_self r0 rs
        · exact List.mem_cons_of_mem r0 h
      · intro r hr
        rw [hlist] at hr
        rcases List.mem_cons.mp hr with rfl | hr
        · exact le_foldl_max_init rs r0 r0 le_rfl
        · exact le_foldl_max_mem rs r0 r hr
      · show (((r0 :: rs).sum : ℚ) / (((j0 :: rest).length : Nat) : ℚ)) *
            (((j0 :: rest).length : Nat) : ℚ) = ((rtList (j0 :: rest)).sum : ℚ)
        rw [hlist]
        apply div_mul_cancel₀
        have : (j0 :: rest).length ≠ 0 := by simp
        exact_mod_cast this
      · show (j0 :: rest).countP (fun j => j.is_missed) = _
        congr 1
        funext j
        exact is_missed_eq j

lemma analyzeGo_spec (completed : List Job) (hfin : ∀ j ∈ completed, j.finish_time ≠ -1) :
    ∀ tasks : List Task, ∃ out, analyzeGo completed tasks = some out ∧
      out.length = tasks.length ∧
      ∀ i (h : i < tasks.length), ∃ st,
        out.get? i = some ((tasks.get ⟨i, h⟩).id, st) ∧
        StatSpec (completed.filter (fun j => j.task_id == (tasks.get ⟨i, h⟩).id)) st := by
  intro tasks
  induction tasks with
  | nil => exact ⟨[], rfl, rfl, fun i h => absurd h (by simp)⟩
  | cons task rest ih =>
    obtain ⟨out, hout, hlen, hget⟩ := ih
    have hsub : ∀ j ∈ completed.filter (fun j => j.task_id == task.id), j.finish_time ≠ -1 :=
      fun j hj => hfin j (List.mem_of_mem_filter hj)
    obtain ⟨st, hst, hspec⟩ := taskStat_spec _ hsub
    refine ⟨(task.id, st) :: out, ?_, by simp [hlen], ?_⟩
    · rw [analyzeGo, hst, hout]
    · intro i h
      cases i with
      | zero => exact ⟨st, rfl, hspec⟩
      | succ i =>
        obtain ⟨st', hst', hspec'⟩ := hget i (by simpa using h)
        exact ⟨st', hst', hspec'⟩

lemma wcrtAux_exit {C D : Int} {hp : List Task} :
    ∀ (fuel : Nat) (R r : Int), wcrtAux C D hp fuel R = some r →
      D < r ∨ r = wcrtStep C hp r := by
  intro fuel
  induction fuel with
  | zero => intro R r h; simp [wcrtAux] at h
  | succ fuel ih =>
    intro R r h
    unfold wcrtAux at h
    by_cases h1 : D < wcrtStep C hp R
    · simp [h1] at h
      exact Or.inl (h ▸ h1)
    · by_cases h2 : wcrtStep C hp R = R
      · simp [h1, h2] at h
        subst h
        exact Or.inr h2.symm
      · simp only [h1, h2, if_false] at h
        exact ih _ _ h

/-! ### The claims -/

/-- The two-task set witnessing that the RM simulation follows the
user-supplied priorities: task 1 has the shorter period (2 vs 10) but the
larger priority value (9 vs 0). -/
def c1Tasks : List Task :=
  [⟨"T1", 1, 1, 1, 2, 2, 9⟩, ⟨"T2", 2, 1, 1, 10, 10, 0⟩]

/-- Claim C1 (code evaluation at the failing input): under algorithm
"RM", at tick 0 the scheduler dispatches task 2 — the task with the
minimum *user-supplied* priority value — even though task 1 has the
strictly shorter period, because the RM priority pre-assignment in
`Scheduler.__init__` is commented out.  The claim (priorities overwritten
by the ascending-period RM policy at construction, dispatch independent
of input priorities) therefore fails on the code. -/
theorem c1_rm_dispatch_follows_input_priority :
    ((Scheduler.init c1Tasks "RM").run 1).history = [(0, some 2)] ∧
    c1Tasks.map Task.period = [2, 10] ∧
    c1Tasks.map Task.priority = [9, 0] := by
  exact ⟨by decide, rfl, rfl⟩

/-- Task set for C2: task 1 (period 2, wcet 1, deadline 2, priority 9)
and task 2 (period 4, wcet 2, deadline 4, priority 0); RM analysis ranks
task 1 highest (shortest period), the simulation ranks task 2 highest
(smallest user priority). -/
def c2Tasks : List Task :=
  [⟨"T1", 1, 1, 1, 2, 2, 9⟩, ⟨"T2", 2, 2, 2, 4, 4, 0⟩]

/-- Claim C2 (code evaluation at the failing input): over the full
hyperperiod (lcm(2,4) = 4) of `c2Tasks`, the RM analytic WCRT of task 1
is 1, but the simulated (observed) WCRT of task 1 is 3: the validation
invariant "simulated WCRT ≤ analytic WCRT under RM" is violated by the
code, again because the RM run never re-assigns priorities by period. -/
theorem c2_sim_wcrt_exceeds_analytic :
    perform_rm_analysis c2Tasks =
      some [(1, ⟨2, 1, 1, true⟩), (2, ⟨4, 2, 4, true⟩)] ∧
    (Scheduler.init c2Tasks "RM").hyperperiod = 4 ∧
    (((Scheduler.init c2Tasks "RM").run 4).analyze_results).map
        (fun l => l.map (fun p => (p.1, p.2.sim_wcrt, p.2.missed))) =
      some [(1, 3, 1), (2, 2, 0)] ∧
    ¬((3 : Int) ≤ 1) := by
  exact ⟨by decide, by decide, by decide, by decide⟩

/-- Claim C3: for every task with positive wcet and deadline and
higher-priority tasks with positive periods and non-negative wcets, the
fixed-point iteration of `calculate_exact_wcrt_rm` terminates: the
candidate sequence starting at the task's wcet is monotonically
non-decreasing, the loop returns an answer (the fuel bound is never
exhausted), and the returned value either exceeded the deadline (the
immediate unschedulable exit) or is a fixed point of the iteration. -/
theorem c3_wcrt_monotone_and_terminates (task : Task) (hp : List Task)
    (hw : 0 < task.wcet) (hd : 0 < task.deadline)
    (hhp : ∀ h ∈ hp, 0 < h.period ∧ 0 ≤ h.wcet) :
    (∀ n, wcrtSeq task.wcet hp n ≤ wcrtSeq task.wcet hp (n + 1)) ∧
    ∃ r, calculate_exact_wcrt_rm task hp = some r ∧
      (task.deadline < r ∨ r = wcrtStep task.wcet hp r) := by
  constructor
  · exact fun n => wcrtSeq_mono hhp (le_of_lt hw) n
  · have hsome := wcrtAux_isSome (C := task.wcet) (D := task.deadline) hhp
      (task.deadline.toNat + 1) task.wcet (le_of_lt hw)
      (le_wcrtStep_self hhp (le_of_lt hw)) (by omega)
    obtain ⟨r, hr⟩ := Option.isSome_iff_exists.mp hsome
    exact ⟨r, hr, wcrtAux_exit _ _ _ hr⟩

/-- Witness for C3 at a concrete task (wcet 2, deadline 5) with one
higher-priority task (period 2, wcet 1); the iteration converges to 4. -/
theorem c3_witness :
    (∀ n, wcrtSeq (⟨"T1", 1, 1, 2, 5, 5, 0⟩ : Task).wcet [⟨"T0", 0, 1, 1, 2, 2, 0⟩] n ≤
        wcrtSeq (⟨"T1", 1, 1, 2, 5, 5, 0⟩ : Task).wcet [⟨"T0", 0, 1, 1, 2, 2, 0⟩] (n + 1)) ∧
    ∃ r, calculate_exact_wcrt_rm ⟨"T1", 1, 1, 2, 5, 5, 0⟩ [⟨"T0", 0, 1, 1, 2, 2, 0⟩] = some r ∧
      ((⟨"T1", 1, 1, 2, 5, 5, 0⟩ : Task).deadline < r ∨
        r = wcrtStep (⟨"T1", 1, 1, 2, 5, 5, 0⟩ : Task).wcet [⟨"T0", 0, 1, 1, 2, 2, 0⟩] r) :=
  c3_wcrt_monotone_and_terminates ⟨"T1", 1, 1, 2, 5, 5, 0⟩ [⟨"T0", 0, 1, 1, 2, 2, 0⟩]
    (by decide) (by decide)
    (by intro h hh; rcases List.mem_singleton.mp hh with rfl; exact ⟨by decide, by decide⟩)

/-- Claim C4 counterexample: on the empty task set `check_ll_bound` does
*not* return its result tuple — Python evaluates `2**(1/n)` with `n = 0`
and raises `ZeroDivisionError`, modelled as `none`. -/
theorem c4_counterexample : check_ll_bound ([] : List Task) = none := rfl

/-- Claim C4, amended: for the empty task set, constructing a `Scheduler`
yields hyperperiod 0 and running it for a caller-supplied fallback
duration (100, as in main.py) completes without error — a full-length
all-idle trace and no completed jobs — but `check_ll_bound` raises
`ZeroDivisionError` (the `1/n` subterm) instead of returning its triple,
so the no-crash guarantee excludes `check_ll_bound`. -/
theorem c4_empty_taskset_amended :
    check_ll_bound ([] : List Task) = none ∧
    (Scheduler.init [] "RM").hyperperiod = 0 ∧
    ((Scheduler.init [] "RM").run 100).history.length = 100 ∧
    ((Scheduler.init [] "RM").run 100).completed_jobs = [] := by
  rw [run_eq_stateAt [] "RM" 100]
  exact ⟨rfl, rfl, history_len [] "RM" 100, (stateAt_nil_tasks "RM" 100).2.2.2⟩

/-- Claim C5 (code evaluation at the failing input): a data row whose
header lacks the `BCET` column (here: `Task=1, WCET=1, Period=2,
Deadline=2`) makes `load_tasks_from_csv` evaluate `int(row.get('BCET'))`
= `int(None)`, raising a `TypeError` that none of the `except` arms
catch: the load neither returns an empty task list nor reports a
recoverable error, contradicting the claim. -/
theorem c5_missing_column_uncaught :
    load_tasks_from_csv
        [[("Task", "1"), ("WCET", "1"), ("Period", "2"), ("Deadline", "2")]] =
      LoadResult.uncaught "int() argument must be a string, not NoneType" := by
  decide

/-- Claim C6: the simulation is deterministic — two schedulers built from
(deep copies of) equal task sets, run with the same algorithm for the
same duration, produce identical traces, identical completed-job lists
and identical statistics.  In the embedding the run is a pure function of
its inputs (Python's `min`-based tie-break on queue order is itself
deterministic), so equal inputs give equal outputs. -/
theorem c6_determinism (ts1 ts2 : List Task) (alg : String) (d : Nat)
    (h : ts1 = ts2) :
    ((Scheduler.init ts1 alg).run d).history = ((Scheduler.init ts2 alg).run d).history ∧
    ((Scheduler.init ts1 alg).run d).completed_jobs =
      ((Scheduler.init ts2 alg).run d).completed_jobs ∧
    ((Scheduler.init ts1 alg).run d).analyze_results =
      ((Scheduler.init ts2 alg).run d).analyze_results := by
  subst h
  exact ⟨rfl, rfl, rfl⟩

/-- Witness for C6: two runs of the same one-task set under RM. -/
theorem c6_witness :
    ((Scheduler.init [⟨"T1", 1, 1, 1, 2, 2, 0⟩] "RM").run 4).history =
      ((Scheduler.init [⟨"T1", 1, 1, 1, 2, 2, 0⟩] "RM").run 4).history ∧
    ((Scheduler.init [⟨"T1", 1, 1, 1, 2, 2, 0⟩] "RM").run 4).completed_jobs =
      ((Scheduler.init [⟨"T1", 1, 1, 1, 2, 2, 0⟩] "RM").run 4).completed_jobs ∧
    ((Scheduler.init [⟨"T1", 1, 1, 1, 2, 2, 0⟩] "RM").run 4).analyze_results =
      ((Scheduler.init [⟨"T1", 1, 1, 1, 2, 2, 0⟩] "RM").run 4).analyze_results :=
  c6_determinism [⟨"T1", 1, 1, 1, 2, 2, 0⟩] [⟨"T1", 1, 1, 1, 2, 2, 0⟩] "RM" 4 rfl

/-- Claim C7: a run of duration `d` records exactly `d` trace entries;
the `i`-th entry is the pair of `i` and the id of the task executed at
tick `i` (the dispatch decision on the tick-`i` post-release state), and
whenever the ready set is empty at tick `i` the entry is the idle entry
`(i, none)`. -/
theorem c7_trace_covers_every_tick (tasks : List Task) (alg : String) (d : Nat) :
    ((Scheduler.init tasks alg).run d).history.length = d ∧
    ∀ i, i < d →
      ((Scheduler.init tasks alg).run d).history.get? i =
        some (i, executedTaskAt tasks alg i) ∧
      (((stateAt tasks alg i).1.afterRel i).ready_queue = [] →
        executedTaskAt tasks alg i = none) := by
  refine ⟨history_len tasks alg d, ?_⟩
  intro i hi
  refine ⟨history_get tasks alg d i hi, ?_⟩
  intro hready
  unfold executedTaskAt
  rw [activeJob_of_nil hready]
  rfl

/-- Witness for C7 at a one-task set run for two ticks. -/
theorem c7_witness :
    ((Scheduler.init [⟨"T1", 1, 1, 1, 2, 2, 0⟩] "RM").run 2).history.length = 2 ∧
    ∀ i, i < 2 →
      ((Scheduler.init [⟨"T1", 1, 1, 1, 2, 2, 0⟩] "RM").run 2).history.get? i =
        some (i, executedTaskAt [⟨"T1", 1, 1, 1, 2, 2, 0⟩] "RM" i) ∧
      (((stateAt [⟨"T1", 1, 1, 1, 2, 2, 0⟩] "RM" i).1.afterRel i).ready_queue = [] →
        executedTaskAt [⟨"T1", 1, 1, 1, 2, 2, 0⟩] "RM" i = none) :=
  c7_trace_covers_every_tick [⟨"T1", 1, 1, 1, 2, 2, 0⟩] "RM" 2

/-- Claim C8: after any run, `analyze_results` succeeds and, for every
task (positionally, in the scheduler's task order), reports the zero
triple when the task has no completed jobs, and otherwise the maximum
response time (finish − arrival) over its completed jobs, the arithmetic
mean of those response times, and the count of completed jobs that are
finished with finish time past their absolute deadline — an unfinished
job is never counted (`StatSpec`). -/
theorem c8_stats_characterization (tasks : List Task) (alg : String) (d : Nat) :
    ∃ out, ((Scheduler.init tasks alg).run d).analyze_results = some out ∧
      out.length = ((Scheduler.init tasks alg).run d).tasks.length ∧
      ∀ i (h : i < ((Scheduler.init tasks alg).run d).tasks.length), ∃ st,
        out.get? i = some ((((Scheduler.init tasks alg).run d).tasks.get ⟨i, h⟩).id, st) ∧
        StatSpec (((Scheduler.init tasks alg).run d).completed_jobs.filter
          (fun j => j.task_id == (((Scheduler.init tasks alg).run d).tasks.get ⟨i, h⟩).id)) st := by
  have hfin : ∀ j ∈ ((Scheduler.init tasks alg).run d).completed_jobs,
      j.finish_time ≠ -1 := by
    intro j hj
    have := completed_finish_pos tasks alg d j hj
    omega
  exact analyzeGo_spec _ hfin _

/-- Witness for C8: the spec's own single-task example (wcet 2, period 5,
deadline 5) simulated for 10 ticks. -/
theorem c8_witness :
    ∃ out, ((Scheduler.init [⟨"T1", 1, 1, 2, 5, 5, 0⟩] "RM").run 10).analyze_results = some out ∧
      out.length = ((Scheduler.init [⟨"T1", 1, 1, 2, 5, 5, 0⟩] "RM").run 10).tasks.length ∧
      ∀ i (h : i < ((Scheduler.init [⟨"T1", 1, 1, 2, 5, 5, 0⟩] "RM").run 10).tasks.length), ∃ st,
        out.get? i = some ((((Scheduler.init [⟨"T1", 1, 1, 2, 5, 5, 0⟩] "RM").run 10).tasks.get ⟨i, h⟩).id, st) ∧
        StatSpec (((Scheduler.init [⟨"T1", 1, 1, 2, 5, 5, 0⟩] "RM").run 10).completed_jobs.filter
          (fun j => j.task_id == (((Scheduler.init [⟨"T1", 1, 1, 2, 5, 5, 0⟩] "RM").run 10).tasks.get ⟨i, h⟩).id)) st :=
  c8_stats_characterization [⟨"T1", 1, 1, 2, 5, 5, 0⟩] "RM" 10

/-- Claim C9: during every run, (1) a job that carries a non-sentinel
start time keeps exactly that start time for the rest of the run (the
start time is assigned at most once, and preemption/re-dispatch never
changes it); and (2) any job carrying a non-sentinel start time after a
step either already carried it before the step, or was stamped at this
very tick, which happens only for the dispatched job, only when its start
time was the sentinel `-1`, and only when it differs from the previously
running job — so until its first dispatch a job's start time stays at
`-1`. -/
theorem c9_start_time_set_once (tasks : List Task) (alg : String) :
    (∀ n m, n ≤ m → ∀ x ∈ (stateAt tasks alg n).1.allJobs, x.start_time ≠ -1 →
      ∃ y ∈ (stateAt tasks alg m).1.allJobs,
        y.task_id = x.task_id ∧ y.job_id = x.job_id ∧ y.start_time = x.start_time) ∧
    (∀ t, ∀ y ∈ (stateAt tasks alg (t + 1)).1.allJobs,
      (∃ x ∈ (stateAt tasks alg t).1.allJobs, x.task_id = y.task_id ∧
          x.job_id = y.job_id ∧ x.start_time = y.start_time) ∨
      y.start_time = -1 ∨
      (y.start_time = (t : Int) ∧
        ∃ i j0, ((stateAt tasks alg t).1.afterRel t).activeJob = some (i, j0) ∧
          j0.start_time = -1 ∧ some j0 ≠ (stateAt tasks alg t).2 ∧
          y.task_id = j0.task_id ∧ y.job_id = j0.job_id)) := by
  constructor
  · intro n m
    induction m with
    | zero =>
      intro hnm x hx hs
      have hn : n = 0 := by omega
      subst hn
      exact ⟨x, hx, rfl, rfl, rfl⟩
    | succ m ih =>
      intro hnm x hx hs
      by_cases he : n = m + 1
      · subst he
        exact ⟨x, hx, rfl, rfl, rfl⟩
      · obtain ⟨y, hy, h1, h2, h3⟩ := ih (by omega) x hx hs
        have hs' : y.start_time ≠ -1 := by rw [h3]; exact hs
        obtain ⟨z, hz, g1, g2, g3⟩ :=
          step_allJobs_retain (stateAt tasks alg m).1 (stateAt tasks alg m).2 m y hy hs'
        refine ⟨z, ?_, ?_, ?_, ?_⟩
        · rw [stateAt_succ]
          exact hz
        · rw [g1, h1]
        · rw [g2, h2]
        · rw [g3, h3]
  · intro t y hy
    rw [stateAt_succ] at hy
    exact step_allJobs_src (stateAt tasks alg t).1 (stateAt tasks alg t).2 t y hy

/-- Witness for C9: in a one-task RM run, the job released and finished
at tick 0 carries start time 0 at the end of tick 1 and still carries
start time 0 at the end of tick 2. -/
theorem c9_witness :
    ∃ y ∈ (stateAt [⟨"T1", 1, 1, 1, 2, 2, 0⟩] "RM" 2).1.allJobs,
      y.task_id = (⟨1, 0, 0, 2, 0, 0, 1⟩ : Job).task_id ∧
      y.job_id = (⟨1, 0, 0, 2, 0, 0, 1⟩ : Job).job_id ∧
      y.start_time = (⟨1, 0, 0, 2, 0, 0, 1⟩ : Job).start_time :=
  (c9_start_time_set_once [⟨"T1", 1, 1, 1, 2, 2, 0⟩] "RM").1 1 2 (by decide)
    ⟨1, 0, 0, 2, 0, 0, 1⟩ (by decide) (by decide)

/-- Claim C10: a scheduler built with an algorithm string other than
"RM", "DM" or "EDF" runs without error and never dispatches: every trace
entry is idle, the completed list stays empty, and the ready queue
accumulates exactly the jobs released at each release boundary. -/
theorem c10_unknown_algorithm_idles (tasks : List Task) (alg : String) (d : Nat)
    (h1 : alg ≠ "RM") (h2 : alg ≠ "DM") (h3 : alg ≠ "EDF") :
    ((Scheduler.init tasks alg).run d).history =
      (List.range d).map (fun i => (i, (none : Option Int))) ∧
    ((Scheduler.init tasks alg).run d).completed_jobs = [] ∧
    ((Scheduler.init tasks alg).run d).ready_queue =
      (List.range d).foldl (fun q t => q ++ releasesAt tasks t) [] := by
  obtain ⟨_, _, _, hh, hc, hq⟩ := stateAt_other tasks alg h1 h2 h3 d
  exact ⟨hh, hc, hq⟩

/-- Witness for C10: algorithm string "FIFO" on a one-task set for two
ticks. -/
theorem c10_witness :
    ((Scheduler.init [⟨"T1", 1, 1, 1, 2, 2, 0⟩] "FIFO").run 2).history =
      (List.range 2).map (fun i => (i, (none : Option Int))) ∧
    ((Scheduler.init [⟨"T1", 1, 1, 1, 2, 2, 0⟩] "FIFO").run 2).completed_jobs = [] ∧
    ((Scheduler.init [⟨"T1", 1, 1, 1, 2, 2, 0⟩] "FIFO").run 2).ready_queue =
      (List.range 2).foldl (fun q t => q ++ releasesAt [⟨"T1", 1, 1, 1, 2, 2, 0⟩] t) [] :=
  c10_unknown_algorithm_idles [⟨"T1", 1, 1, 1, 2, 2, 0⟩] "FIFO" 2
    (by decide) (by decide) (by decide)

end RTS
